import Mathlib

/-!
Shallow embedding of `juniper_codegen/src/graphql_interface/attr.rs`: the
`#[graphql_interface]` declaration compiler placed on a trait definition
(`expand_on_trait` and its helpers `TraitMethod::parse`,
`TraitMethod::parse_downcast`, `TraitMethod::parse_field`,
`TraitMethod::parse_field_argument`, `ensure_no_regular_field_argument_meta`,
and the `err_*` diagnostic constructors).

Modelling conventions:
* `syn` types are restricted to the shapes this pass inspects; token-level
  details (attribute stripping, `quote!` re-emission, `inject_async_trait`
  signature rewriting) that do not feed the produced `InterfaceDefinition` /
  value type are not modelled.
* `proc_macro_error`'s emit/abort machinery becomes an explicit diagnostic
  list; `abort_if_dirty` becomes a check that the list is empty.
* The `unreachable!()` inside `err_duplicate_downcast` becomes the `.error`
  branch of an `Except String` (a panic of the whole expansion).
* External collaborators that live outside `src/` (the directive extractor,
  `to_camel_case`, `parse::downcaster`, `ScalarValueType::default_scalar`,
  the `no_double_underscore` diagnostic text) are modelled from the spec and
  marked as such in their doc comments.
-/

/-- Source locations, abstracted to opaque tokens. Where the source picks a
sub-span (identifier span, keyword span) the model uses the nearest enclosing
recorded span; claims only depend on which recorded span a diagnostic carries. -/
abbrev Span := Nat

/-- Rust identifiers (already `unraw`ed). -/
abbrev Ident := String

/-- A Rust path (e.g. an external downcast function), kept as its rendering. -/
abbrev RustPath := String

/-- Rust types, restricted to the shapes this compiler inspects: bare paths,
shared references, `Option<..>` wrappers and the unit type. Compared
structurally, mirroring `syn::Type`'s `PartialEq`. Lifetimes are not modelled
(the source erases them from field result types via `anonymize_lifetimes`,
so the field type is simply the output type here). -/
inductive Ty
  | unit
  | path (name : Ident)
  | ref (inner : Ty)
  | option (inner : Ty)
deriving DecidableEq, Repr, Inhabited

/-- Rendering of a type back to tokens (`to_token_stream`), used only inside
diagnostic messages. -/
def Ty.render : Ty → String
  | .unit => "()"
  | .path name => name
  | .ref inner => "&" ++ inner.render
  | .option inner => "Option<" ++ inner.render ++ ">"

/-- Modelled from the spec: the external `TypeExt::unreferenced` helper of the
common parsing module (not under `src/`) — it strips reference layers from a
type, used when a context argument's type is recorded. -/
def Ty.unreferenced : Ty → Ty
  | .ref inner => inner.unreferenced
  | t => t

/-- Argument patterns: a single bare identifier, or anything else
(destructuring patterns and the like). -/
inductive Pat
  | ident (name : Ident)
  | other
deriving DecidableEq, Repr, Inhabited

/-- Generic parameters of the trait declaration (`syn::GenericParam`). Type
parameters may carry a default type. -/
inductive GenericParam
  | typeParam (ident : Ident) (dfault : Option Ty)
  | lifetimeParam (ident : Ident)
  | constParam (ident : Ident)
deriving DecidableEq, Repr, Inhabited

/-- Supertrait bounds of the trait declaration. The pass appends
`::juniper::AsDynGraphQLValue<#scalar>` and, in the async-with-default-methods
case, `Sync`. -/
inductive Supertrait
  | asDynGraphQLValue (scalar : Ident)
  | sync
  | other (tokens : String)
deriving DecidableEq, Repr, Inhabited

/-- A compile-time diagnostic (one `emit_error!`/`ERR.custom(..).emit()` call):
location, message, and an optional note. -/
structure Diag where
  span : Span
  message : String
  note : Option String
deriving DecidableEq, Repr, Inhabited

/-- Modelled from the spec: the `GraphQLScope::no_double_underscore`
diagnostic of the external diagnostics module (not under `src/`) — the
reserved-name-prefix error (§7); its exact message text lives outside this
core, only its presence and location matter here. -/
def no_double_underscore (sp : Span) : Diag :=
  { span := sp
    message := "names beginning with a double underscore are reserved for introspection"
    note := none }

/-- Modelled from the spec: a structured parse failure returned by the
Directive Extractor collaborator (§6), re-emitted by this pass at its recorded
location (`.map_err(|e| proc_macro_error::emit_error!(e))`). -/
def attr_parse_failure (sp : Span) : Diag :=
  { span := sp
    message := "invalid graphql_interface attribute arguments"
    note := none }

def err_disallowed_attr (sp : Span) (attr : String) : Diag :=
  { span := sp
    message := "attribute `#[graphql_interface(" ++ attr ++ " = ...)]` is not allowed here"
    note := none }

def err_invalid_method_receiver (sp : Span) : Diag :=
  { span := sp
    message := "trait method receiver can only be a shared reference `&self`"
    note := none }

def err_no_method_receiver (sp : Span) : Diag :=
  { span := sp
    message := "trait method should have a shared reference receiver `&self`"
    note := none }

def err_only_implementer_downcast (sp : Span) : Diag :=
  { span := sp
    message := "downcasting is possible only to interface implementers"
    note := none }

def err_argument_pattern (sp : Span) : Diag :=
  { span := sp
    message := "trait method argument should be declared as a single identifier"
    note := some "use `#[graphql_interface(name = ...)]` attribute to specify custom argument's name without requiring it being a single identifier" }

def err_downcast_output (sp : Span) : Diag :=
  { span := sp
    message := "expects trait method return type to be `Option<&ImplementerType>` only"
    note := none }

def err_downcast_signature (sp : Span) : Diag :=
  { span := sp
    message := "expects trait method to accept `&self` only and, optionally, `&Context`"
    note := none }

def err_async_downcast (sp : Span) : Diag :=
  { span := sp
    message := "async downcast to interface implementer is not supported"
    note := none }

/-- The reserved-prefix test `name.starts_with("__")`, written as a character
match so it computes by kernel reduction. -/
def starts_with_uu (s : String) : Bool :=
  match s.data with
  | '_' :: '_' :: _ => true
  | _ => false

/-- Modelled from the spec: the external `to_camel_case` naming/casing utility
(§1 "naming/casing utilities" are external collaborators; §4.1: a field name is
"derived from the method identifier via case conversion"). Leading `__` is
preserved (so reserved prefixes remain detectable), a single leading `_` is
dropped, and every `_x` becomes an upper-cased `X`. Helper over `List Char`. -/
def camel_rec : List Char → List Char
  | [] => []
  | '_' :: c :: rest => c.toUpper :: camel_rec rest
  | c :: rest => c :: camel_rec rest

/-- Modelled from the spec: see `camel_rec`. -/
def to_camel_case (s : String) : String :=
  match s.data with
  | '_' :: '_' :: rest => String.mk ('_' :: '_' :: camel_rec rest)
  | '_' :: rest => String.mk (camel_rec rest)
  | l => String.mk (camel_rec l)

/-- Argument-level option bag produced by the Directive Extractor (`ArgumentMeta`,
declared outside `src/`; its shape is fixed by how `attr.rs` reads it and by
§6: `name`, `description`, `default(value)`, `context`, `executor`). Options
that are read together with a location keep their span. -/
structure ArgumentMeta where
  name : Option (String × Span)
  description : Option (String × Span)
  dfault : Option (Option String × Span)
  context : Option Span
  executor : Option Span
deriving DecidableEq, Repr, Inhabited

/-- Method-level option bag (`TraitMethodMeta`, declared outside `src/`; shape
fixed by how `attr.rs` reads it and by §6: `name`, `description`,
`deprecated(reason)`, `ignore`, `downcast`). -/
structure TraitMethodMeta where
  name : Option (String × Span)
  description : Option String
  deprecated : Option (Option String)
  ignore : Bool
  downcast : Bool
deriving DecidableEq, Repr, Inhabited

/-- Declaration-level option bag (`InterfaceMeta`, declared outside `src/`;
shape fixed by how `attr.rs` reads it and by §6). External downcast bindings
are the `(target type, downcast function, binding location)` entries of
`meta.external_downcasts`. -/
structure InterfaceMeta where
  name : Option (String × Span)
  description : Option String
  context : Option Ty
  scalar : Option Ty
  implementers : List (Ty × Span)
  external_downcasts : List (Ty × RustPath × Span)
  asyncness : Bool
  as_dyn : Option Ident
  as_enum : Option Ident
  is_internal : Bool
deriving DecidableEq, Repr, Inhabited

instance {ε α : Type} [DecidableEq ε] [DecidableEq α] : DecidableEq (Except ε α) := fun x y =>
  match x, y with
  | .ok a, .ok b => if h : a = b then isTrue (by rw [h]) else isFalse (by simp [h])
  | .error a, .error b => if h : a = b then isTrue (by rw [h]) else isFalse (by simp [h])
  | .ok _, .error _ => isFalse (by simp)
  | .error _, .ok _ => isFalse (by simp)

/-- A typed (non-`self`) function argument (`syn::PatType`), together with the
already-extracted argument directive bag (or the extractor's parse failure). -/
structure PatType where
  pat : Pat
  ty : Ty
  metaRes : Except Span ArgumentMeta
  span : Span
deriving DecidableEq, Repr, Inhabited

/-- A function argument (`syn::FnArg`): a receiver (with its reference-ness and
mutability) or a typed argument. -/
inductive FnArg
  | receiver (reference : Bool) (mutability : Bool) (span : Span)
  | typed (arg : PatType)
deriving DecidableEq, Repr, Inhabited

/-- A method signature (`syn::Signature`): name, arguments, output type
(`none` is the `-> ()` default), async-ness. -/
structure Sig where
  ident : Ident
  inputs : List FnArg
  output : Option Ty
  asyncness : Bool
  span : Span
deriving DecidableEq, Repr, Inhabited

/-- A trait method item (`syn::TraitItemMethod`), with the already-extracted
method directive bag (or the extractor's parse failure) and whether the method
has a default body. -/
structure TraitItemMethod where
  sig : Sig
  metaRes : Except Span TraitMethodMeta
  hasDefault : Bool
  span : Span
deriving DecidableEq, Repr, Inhabited

/-- A trait item (`syn::TraitItem`): a method, an associated type, an
associated const, or anything else (ignored by the pass). -/
inductive TraitItem
  | method (m : TraitItemMethod)
  | typeItem (ident : Ident)
  | constItem (ident : Ident) (ty : Ty)
  | otherItem
deriving DecidableEq, Repr, Inhabited

/-- The annotated trait declaration (`syn::ItemTrait`). The `where`-clause is
kept apart from `generics` as a list of rendered predicates. -/
structure ItemTrait where
  ident : Ident
  ident_span : Span
  vis : String
  generics : List GenericParam
  supertraits : List Supertrait
  where_preds : List String
  items : List TraitItem
deriving DecidableEq, Repr, Inhabited

/-- `InterfaceFieldArgumentDefinition`: a regular named GraphQL field argument. -/
structure InterfaceFieldArgumentDefinition where
  name : String
  ty : Ty
  description : Option String
  dfault : Option (Option String)
deriving DecidableEq, Repr, Inhabited

/-- `MethodArgument`: the role of a classified field-method parameter. -/
inductive MethodArgument
  | context (ty : Ty)
  | executor
  | regular (arg : InterfaceFieldArgumentDefinition)
deriving DecidableEq, Repr, Inhabited

/-- `MethodArgument::context_ty`. -/
def MethodArgument.context_ty : MethodArgument → Option Ty
  | .context ty => some ty
  | _ => none

/-- `InterfaceFieldDefinition`: one queryable field of the contract. -/
structure InterfaceFieldDefinition where
  name : String
  ty : Ty
  description : Option String
  deprecated : Option (Option String)
  method : Ident
  arguments : List MethodArgument
  is_async : Bool
deriving DecidableEq, Repr, Inhabited

/-- `ImplementerDowncastDefinition`: how an implementer is downcast to. -/
inductive ImplementerDowncastDefinition
  | external (path : RustPath)
  | method (name : Ident) (with_context : Bool)
deriving DecidableEq, Repr, Inhabited

/-- `ImplementerDefinition`: one conforming implementer type with its optional
downcast binding and the context type that binding consumes. -/
structure ImplementerDefinition where
  ty : Ty
  downcast : Option ImplementerDowncastDefinition
  context_ty : Option Ty
  span : Span
deriving DecidableEq, Repr, Inhabited

/-- `ScalarValueType`: how the generic scalar ("payload") parameter of the
contract is resolved. -/
inductive ScalarValueType
  | concrete (ty : Ty)
  | explicitGeneric (ident : Ident)
  | implicitGeneric
deriving DecidableEq, Repr, Inhabited

/-- `ScalarValueType::is_explicit_generic`. -/
def ScalarValueType.is_explicit_generic : ScalarValueType → Bool
  | .explicitGeneric _ => true
  | _ => false

/-- Modelled from the spec: `ScalarValueType::default_scalar` of the external
common module (not under `src/`) — the synthesized implicit parameter "is
given a default, concrete payload type" (§4.4); an explicit `Concrete` scalar
keeps its own type. -/
def ScalarValueType.default_scalar : ScalarValueType → Ty
  | .concrete ty => ty
  | _ => Ty.path "DefaultScalarValue"

/-- `InterfaceDefinition`: the produced ContractModel. -/
structure InterfaceDefinition where
  name : String
  ty : Ident
  trait_object : Option Ident
  visibility : String
  description : Option String
  context : Option Ty
  scalar : ScalarValueType
  generics : List GenericParam
  fields : List InterfaceFieldDefinition
  implementers : List ImplementerDefinition
deriving DecidableEq, Repr, Inhabited

/-- `DynValue`: the open-dispatch (trait object alias) artifact. -/
structure DynValue where
  ident : Ident
  vis : String
  trait_ident : Ident
  trait_generics : List GenericParam
  scalar : ScalarValueType
  context : Option Ty
deriving DecidableEq, Repr, Inhabited

/-- `EnumValue`: the closed-dispatch (tagged union) artifact, with one variant
per implementer and the trait surface it must re-expose. -/
structure EnumValue where
  ident : Ident
  vis : String
  variants : List Ty
  trait_ident : Ident
  trait_generics : List GenericParam
  trait_types : List Ident
  trait_consts : List (Ident × Ty)
  trait_methods : List Sig
deriving DecidableEq, Repr, Inhabited

/-- The dispatch artifact: open (`DynValue`) or closed (`EnumValue`). -/
inductive ValueType
  | dynValue (d : DynValue)
  | enumValue (e : EnumValue)
deriving DecidableEq, Repr, Inhabited

/-- Artifact identifier of either dispatch artifact. -/
def ValueType.artifact_ident : ValueType → Ident
  | .dynValue d => d.ident
  | .enumValue e => e.ident

/-- Whether the artifact is the closed (tagged-union) one. -/
def ValueType.is_enum : ValueType → Bool
  | .enumValue _ => true
  | _ => false

/-- Everything a successful expansion emits that the claims observe: the
re-emitted (mutated) trait declaration, the dispatch artifact, the
ContractModel, and whether the async-trait adaptation was injected
(`is_async_trait` guarding `inject_async_trait`). -/
structure ExpandOutput where
  ast : ItemTrait
  value_type : ValueType
  generated_code : InterfaceDefinition
  async_trait_injected : Bool
deriving DecidableEq, Repr, Inhabited

/-- Result of the whole pass: success, abort with the accumulated diagnostics
(`abort_if_dirty`), or a Rust panic (`unreachable!()`). -/
inductive Expansion
  | success (out : ExpandOutput)
  | abort (diags : List Diag)
  | panicked (msg : String)
deriving DecidableEq, Repr, Inhabited

/-- The name-directive / naming-convention resolution for a regular argument
(the `let name = if let Some(name) = meta.name ... else if let Pat::Ident ...`
chain of `TraitMethod::parse_field_argument`): explicit `name` directive first,
otherwise case-converted single identifier, otherwise nothing (a destructuring
pattern without an explicit name). -/
def argument_graphql_name (argument : PatType) (meta : ArgumentMeta) : Option String :=
  match meta.name with
  | some (n, _) => some n
  | none =>
    match argument.pat with
    | Pat.ident n => some (to_camel_case n)
    | Pat.other => none

/-- The by-convention classification of `TraitMethod::parse_field_argument`:
an argument whose declared identifier is exactly `context`, `ctx` or
`executor` is classified by convention. -/
def convention_argument (argument : PatType) : Option MethodArgument :=
  match argument.pat with
  | Pat.ident n =>
    if n = "context" || n = "ctx" then some (MethodArgument.context argument.ty.unreferenced)
    else if n = "executor" then some MethodArgument.executor
    else none
  | Pat.other => none

/-- `ensure_no_regular_field_argument_meta`: returns the diagnostic produced
by the first disallowed regular-argument directive (`name`, `description`,
`default`, in that order), or `none` when the combination is allowed. (The
source returns `Option<()>` and emits the diagnostic as a side effect; here
the emitted diagnostic is the returned value.) -/
def ensure_no_regular_field_argument_meta (meta : ArgumentMeta) : Option Diag :=
  match meta.name with
  | some (_, sp) => some (err_disallowed_attr sp "name")
  | none =>
    match meta.description with
    | some (_, sp) => some (err_disallowed_attr sp "description")
    | none =>
      match meta.dfault with
      | some (_, sp) => some (err_disallowed_attr sp "default")
      | none => none

/-- `TraitMethod::parse_field_argument`: classify one non-receiver parameter,
returning the classified argument (or `none` when it is dropped) together
with the diagnostics emitted while doing so. -/
def TraitMethod.parse_field_argument (argument : PatType) :
    Option MethodArgument × List Diag :=
  match argument.metaRes with
  | .error sp => (none, [attr_parse_failure sp])
  | .ok meta =>
    if meta.context.isSome then
      (some (MethodArgument.context argument.ty.unreferenced), [])
    else if meta.executor.isSome then
      (some MethodArgument.executor, [])
    else
      match convention_argument argument with
      | some arg =>
        match ensure_no_regular_field_argument_meta meta with
        | some d => (none, [d])
        | none => (some arg, [])
      | none =>
        match argument_graphql_name argument meta with
        | none => (none, [err_argument_pattern argument.span])
        | some name =>
          if starts_with_uu name then
            (none, [no_double_underscore ((meta.name.map Prod.snd).getD argument.span)])
          else
            (some (MethodArgument.regular
              { name := name
                ty := argument.ty
                description := meta.description.map Prod.fst
                dfault := meta.dfault.map Prod.fst }), [])

/-- The field name resolution of `TraitMethod::parse_field`: explicit `name`
directive, otherwise the case-converted method identifier. -/
def field_graphql_name (method : TraitItemMethod) (meta : TraitMethodMeta) : String :=
  match meta.name with
  | some (n, _) => n
  | none => to_camel_case method.sig.ident

/-- The argument-collection loop of `TraitMethod::parse_field`
(`args_iter.filter_map(..)`): receivers are skipped, dropped arguments leave
only their diagnostics behind. -/
def parse_arguments : List FnArg → List MethodArgument × List Diag
  | [] => ([], [])
  | FnArg.receiver _ _ _ :: rest => parse_arguments rest
  | FnArg.typed a :: rest =>
    let (r, ds) := TraitMethod.parse_field_argument a
    let (rs, ds') := parse_arguments rest
    ((match r with | some x => x :: rs | none => rs), ds ++ ds')

/-- `TraitMethod::parse_field`: turn a non-downcast, non-ignored method into a
field definition (or drop it with diagnostics). -/
def TraitMethod.parse_field (method : TraitItemMethod) (meta : TraitMethodMeta) :
    Option InterfaceFieldDefinition × List Diag :=
  let name := field_graphql_name method meta
  if starts_with_uu name then
    (none, [no_double_underscore ((meta.name.map Prod.snd).getD method.sig.span)])
  else
    match method.sig.inputs with
    | [] => (none, [err_no_method_receiver method.sig.span])
    | FnArg.receiver reference mutability sp :: rest =>
      if !reference || mutability then
        (none, [err_invalid_method_receiver sp])
      else
        let (arguments, ds) := parse_arguments rest
        (some { name := name
                ty := method.sig.output.getD Ty.unit
                description := meta.description
                deprecated := meta.deprecated
                method := method.sig.ident
                arguments := arguments
                is_async := method.sig.asyncness }, ds)
    | FnArg.typed a :: _ =>
      match a.pat with
      | Pat.ident n =>
        if n ≠ "self" then (none, [err_invalid_method_receiver a.span])
        else (none, [err_no_method_receiver a.span])
      | Pat.other => (none, [err_no_method_receiver a.span])

/-- Modelled from the spec: the external `parse::downcaster::output_type`
helper (not under `src/`). §4.1 requires "exactly a
reference-to-option-of-reference-to-implementer-type result"; the source's own
diagnostic spells the accepted shape as `Option<&ImplementerType>`, whose
implementer type is extracted. -/
def downcaster_output_type (output : Option Ty) (sp : Span) : Except Span Ty :=
  match output with
  | some (Ty.option (Ty.ref t)) => .ok t
  | _ => .error sp

/-- Modelled from the spec: the external `parse::downcaster::context_ty`
helper (not under `src/`). §3: "a downcast operator's receiver must be an
immutable reference with an optional single context-typed parameter"; the
source's own diagnostic spells it as `&self` only and, optionally, `&Context`.
Returns the context type (unreferenced) if the optional parameter is present. -/
def downcaster_context_ty (sig : Sig) : Except Span (Option Ty) :=
  match sig.inputs with
  | [FnArg.receiver true false _] => .ok none
  | [FnArg.receiver true false _, FnArg.typed a] => .ok (some a.ty.unreferenced)
  | _ => .error sig.span

/-- `TraitMethod::parse_downcast`: turn a downcast-marked method into the
implementer definition it binds to (or drop it with diagnostics). -/
def TraitMethod.parse_downcast (method : TraitItemMethod) :
    Option ImplementerDefinition × List Diag :=
  match downcaster_output_type method.sig.output method.sig.span with
  | .error sp => (none, [err_downcast_output sp])
  | .ok ty =>
    match downcaster_context_ty method.sig with
    | .error sp => (none, [err_downcast_signature sp])
    | .ok context_ty =>
      if method.sig.asyncness then
        (none, [err_async_downcast method.sig.span])
      else
        (some { ty := ty
                downcast := some (ImplementerDowncastDefinition.method
                  method.sig.ident context_ty.isSome)
                context_ty := context_ty
                span := method.sig.span }, [])

/-- The classification result of `TraitMethod::parse`. -/
inductive TraitMethod
  | field (f : InterfaceFieldDefinition)
  | downcast (d : ImplementerDefinition)
deriving DecidableEq, Repr

/-- `TraitMethod::parse`: extract the method directives, drop ignored methods,
and classify the rest as downcast operator or field. -/
def TraitMethod.parse (m : TraitItemMethod) : Option TraitMethod × List Diag :=
  match m.metaRes with
  | .error sp => (none, [attr_parse_failure sp])
  | .ok meta =>
    if meta.ignore then (none, [])
    else if meta.downcast then
      match TraitMethod.parse_downcast m with
      | (some d, ds) => (some (TraitMethod.downcast d), ds)
      | (none, ds) => (none, ds)
    else
      match TraitMethod.parse_field m meta with
      | (some f, ds) => (some (TraitMethod.field f), ds)
      | (none, ds) => (none, ds)

/-- `err_duplicate_downcast`: the duplicate-downcast diagnostic, naming the
colliding trait method and the external downcast function. When the existing
binding is not an external one the source hits `unreachable!()`; that panic is
the `.error` branch here. -/
def err_duplicate_downcast (m : TraitItemMethod)
    (ext : ImplementerDowncastDefinition) (impler_ty : Ty) :
    Except String Diag :=
  match ext with
  | ImplementerDowncastDefinition.external path =>
    .ok { span := m.span
          message := "trait method `" ++ m.sig.ident ++
            "` conflicts with the external downcast function `" ++ path ++
            "` declared on the trait to downcast into the implementer type `" ++
            impler_ty.render ++ "`"
          note := some "use `#[graphql_interface(ignore)]` attribute to ignore this trait method for interface implementers downcasting" }
  | _ => .error "internal error: entered unreachable code"

/-- The seeding of the implementer registry from the declared-implementer
list (each starts with no binding). -/
def seed_implementers (meta : InterfaceMeta) : List ImplementerDefinition :=
  meta.implementers.map (fun p =>
    { ty := p.fst, downcast := none, context_ty := none, span := p.snd })

/-- One external-downcast attachment (`implementers.iter_mut().find(..)` plus
the `impler.downcast = Some(External ..)` write): `none` when no implementer
has the target type. Note the source overwrites any existing binding here
without a check. -/
def attach_external (ty : Ty) (path : RustPath) :
    List ImplementerDefinition → Option (List ImplementerDefinition)
  | [] => none
  | i :: rest =>
    if i.ty = ty then
      some ({ i with downcast := some (ImplementerDowncastDefinition.external path) } :: rest)
    else
      match attach_external ty path rest with
      | some rest' => some (i :: rest')
      | none => none

/-- The external-downcast loop of `expand_on_trait` (lines 88–97): apply every
binding in declaration order, emitting the non-implementer diagnostic at the
binding's location when its target type is not registered. -/
def applyExternalDowncasts :
    List (Ty × RustPath × Span) → List ImplementerDefinition →
    List ImplementerDefinition × List Diag
  | [], impls => (impls, [])
  | (ty, path, sp) :: rest, impls =>
    match attach_external ty path impls with
    | some impls' => applyExternalDowncasts rest impls'
    | none =>
      let (impls', ds) := applyExternalDowncasts rest impls
      (impls', err_only_implementer_downcast sp :: ds)

/-- Outcome of trying to attach a method-level downcast to the registry. -/
inductive AttachResult
  | notFound
  | attached (impls : List ImplementerDefinition)
  | conflict (existing : ImplementerDowncastDefinition) (ty : Ty)
deriving DecidableEq, Repr

/-- The method-downcast attachment of the method loop (lines 106–118): find
the implementer with the downcast's type; keep the existing binding on a
conflict; attach the method binding (and its context type) otherwise. -/
def tryAttach (d : ImplementerDefinition) :
    List ImplementerDefinition → AttachResult
  | [] => AttachResult.notFound
  | i :: rest =>
    if i.ty = d.ty then
      match i.downcast with
      | some existing => AttachResult.conflict existing i.ty
      | none => AttachResult.attached
          ({ i with downcast := d.downcast, context_ty := d.context_ty } :: rest)
    else
      match tryAttach d rest with
      | AttachResult.notFound => AttachResult.notFound
      | AttachResult.attached rest' => AttachResult.attached (i :: rest')
      | AttachResult.conflict e t => AttachResult.conflict e t

/-- Accumulator of the method loop: the implementer registry, the fields
collected so far, and the diagnostics emitted since the last
`abort_if_dirty`. -/
structure LoopState where
  implementers : List ImplementerDefinition
  fields : List InterfaceFieldDefinition
  diags : List Diag
deriving DecidableEq, Repr, Inhabited

/-- One iteration of the method loop of `expand_on_trait` (lines 101–122).
The `Except` error is the `unreachable!()` panic of `err_duplicate_downcast`. -/
def stepItem (st : LoopState) (item : TraitItem) : Except String LoopState :=
  match item with
  | TraitItem.method m =>
    match TraitMethod.parse m with
    | (some (TraitMethod.field f), ds) =>
      .ok { st with diags := st.diags ++ ds, fields := st.fields ++ [f] }
    | (some (TraitMethod.downcast d), ds) =>
      match tryAttach d st.implementers with
      | AttachResult.attached impls =>
        .ok { st with diags := st.diags ++ ds, implementers := impls }
      | AttachResult.notFound =>
        .ok { st with diags := (st.diags ++ ds) ++ [err_only_implementer_downcast d.span] }
      | AttachResult.conflict ext t =>
        match err_duplicate_downcast m ext t with
        | .ok diag => .ok { st with diags := (st.diags ++ ds) ++ [diag] }
        | .error e => .error e
    | (none, ds) => .ok { st with diags := st.diags ++ ds }
  | _ => .ok st

/-- The whole method loop of `expand_on_trait`, item by item. -/
def processItems (st : LoopState) : List TraitItem → Except String LoopState
  | [] => .ok st
  | item :: rest =>
    match stepItem st item with
    | .error e => .error e
    | .ok st' => processItems st' rest

/-- The field-scan half of the context fallback (lines 130–135): the context
type of the first `Context`-classified argument found scanning fields in
order. -/
def fields_context (fields : List InterfaceFieldDefinition) : Option Ty :=
  fields.findSome? (fun f => f.arguments.findSome? MethodArgument.context_ty)

/-- The implementer-scan half of the context fallback (lines 137–142): the
context type recorded by the first implementer whose downcast consumes one. -/
def implementers_context (impls : List ImplementerDefinition) : Option Ty :=
  impls.findSome? ImplementerDefinition.context_ty

/-- The context resolution of `expand_on_trait` (lines 126–142): explicit
`context` directive, else first field context argument, else first implementer
context type. -/
def resolveContext (metaCtx : Option Ty) (fields : List InterfaceFieldDefinition)
    (impls : List ImplementerDefinition) : Option Ty :=
  match metaCtx with
  | some c => some c
  | none =>
    match fields_context fields with
    | some c => some c
    | none => implementers_context impls

/-- The scalar-parameter lookup of `expand_on_trait` (lines 148–160): the
first generic type parameter whose identifier, read as a type, equals the
explicit scalar override. -/
def scalar_generic_param (sc : Ty) : List GenericParam → Option Ident
  | [] => none
  | GenericParam.typeParam i _ :: rest =>
    if Ty.path i = sc then some i else scalar_generic_param sc rest
  | _ :: rest => scalar_generic_param sc rest

/-- The scalar-parameter resolution of `expand_on_trait` (lines 144–164):
explicit override matching a generic parameter ↦ `ExplicitGeneric`, explicit
override otherwise ↦ `Concrete`, no override ↦ `ImplicitGeneric`. -/
def resolveScalar (scalar : Option Ty) (generics : List GenericParam) : ScalarValueType :=
  match scalar with
  | some sc =>
    match scalar_generic_param sc generics with
    | some i => ScalarValueType.explicitGeneric i
    | none => ScalarValueType.concrete sc
  | none => ScalarValueType.implicitGeneric

/-- Whether a trait item is an async method (`is_async_trait`'s scan over
`ast.items`, lines 166–174; note it scans every method, not only field
methods). -/
def item_is_async : TraitItem → Bool
  | TraitItem.method m => m.sig.asyncness
  | _ => false

/-- Whether a trait item is an async method with a default body
(`has_default_async_methods`'s scan, lines 175–182). -/
def item_is_default_async : TraitItem → Bool
  | TraitItem.method m => m.sig.asyncness && m.hasDefault
  | _ => false

/-- The scalar token used in the generated bounds: the explicit generic
parameter itself, or the `GraphQLScalarValue` placeholder (lines 209–213). -/
def trait_scalar_token (sc : ScalarValueType) : Ident :=
  match sc with
  | ScalarValueType.explicitGeneric i => i
  | _ => "GraphQLScalarValue"

/-- Everything `expand_on_trait` does after the second `abort_if_dirty`
(lines 126–313): context/scalar/async resolution, the dispatch-mode choice,
the assembled `InterfaceDefinition`, the trait mutations (scalar parameter,
`ScalarValue` bound, `AsDynGraphQLValue` supertrait, conditional `Sync`
supertrait, async-trait injection) and the dispatch artifact. -/
def assemble (meta : InterfaceMeta) (ast : ItemTrait) (st : LoopState) : ExpandOutput :=
  let trait_ident := ast.ident
  let name := (meta.name.map Prod.fst).getD trait_ident
  let context := resolveContext meta.context st.fields st.implementers
  let scalar_ty := resolveScalar meta.scalar ast.generics
  let is_async_trait := meta.asyncness || ast.items.any item_is_async
  let has_default_async_methods := ast.items.any item_is_default_async
  let ty := if meta.as_dyn.isSome then trait_ident
            else match meta.as_enum with
              | some e => e
              | none => trait_ident ++ "Value"
  let generated_code : InterfaceDefinition :=
    { name := name
      ty := ty
      trait_object := meta.as_dyn
      visibility := ast.vis
      description := meta.description
      context := context
      scalar := scalar_ty
      generics := ast.generics
      fields := st.fields
      implementers := st.implementers }
  let scalar := trait_scalar_token scalar_ty
  let generics' :=
    if scalar_ty.is_explicit_generic then ast.generics
    else ast.generics ++ [GenericParam.typeParam scalar (some scalar_ty.default_scalar)]
  let where_preds' := ast.where_preds ++ [scalar ++ ": ::juniper::ScalarValue"]
  let supertraits' := ast.supertraits ++ [Supertrait.asDynGraphQLValue scalar] ++
    (if is_async_trait && has_default_async_methods then [Supertrait.sync] else [])
  let ast' := { ast with generics := generics'
                         where_preds := where_preds'
                         supertraits := supertraits' }
  let value_type :=
    match meta.as_dyn with
    | some dIdent =>
      ValueType.dynValue
        { ident := dIdent
          vis := ast.vis
          trait_ident := trait_ident
          trait_generics := generics'
          scalar := scalar_ty
          context := context }
    | none =>
      ValueType.enumValue
        { ident := (meta.as_enum).getD (trait_ident ++ "Value")
          vis := ast.vis
          variants := st.implementers.map ImplementerDefinition.ty
          trait_ident := trait_ident
          trait_generics := generics'
          trait_types := ast.items.filterMap (fun i => match i with
            | TraitItem.typeItem id => some id
            | _ => none)
          trait_consts := ast.items.filterMap (fun i => match i with
            | TraitItem.constItem id t => some (id, t)
            | _ => none)
          trait_methods := ast.items.filterMap (fun i => match i with
            | TraitItem.method m => some m.sig
            | _ => none) }
  { ast := ast'
    value_type := value_type
    generated_code := generated_code
    async_trait_injected := is_async_trait }

/-- The diagnostics accumulated before the first `abort_if_dirty` (line 99):
the reserved-interface-name check (lines 61–73, exempted for internal
declarations) followed by the external-downcast diagnostics. -/
def pre_diags (meta : InterfaceMeta) (ast : ItemTrait) : List Diag :=
  let name := (meta.name.map Prod.fst).getD ast.ident
  (if !meta.is_internal && starts_with_uu name then
    [no_double_underscore ((meta.name.map Prod.snd).getD ast.ident_span)]
  else []) ++
  (applyExternalDowncasts meta.external_downcasts (seed_implementers meta)).snd

/-- The registry and empty accumulators the method loop starts from. -/
def init_state (meta : InterfaceMeta) : LoopState :=
  { implementers := (applyExternalDowncasts meta.external_downcasts (seed_implementers meta)).fst
    fields := []
    diags := [] }

/-- `expand_on_trait` (lines 53–314): the whole pass on a trait definition,
with the directive extraction of `InterfaceMeta::from_attrs` already done by
the external Directive Extractor. -/
def expand_on_trait (meta : InterfaceMeta) (ast : ItemTrait) : Expansion :=
  match pre_diags meta ast with
  | d :: ds => Expansion.abort (d :: ds)
  | [] =>
    match processItems (init_state meta) ast.items with
    | .error e => Expansion.panicked e
    | .ok st =>
      match st.diags with
      | [] => Expansion.success (assemble meta ast st)
      | d :: ds => Expansion.abort (d :: ds)

/-- Whether a list of inputs starts with a valid field receiver: an immutable
reference receiver (`&self`), never mutable, owned, or absent. -/
def validReceiver : List FnArg → Bool
  | FnArg.receiver reference mutability _ :: _ => reference && !mutability
  | _ => false

/-- The claim's counting predicate (§8): a declared method that is not
ignored, is not a downcast operator, and has a valid receiver. Methods whose
directive extraction failed are not counted (extraction failures abort the
pass before any field is produced, so they never occur in a successful run). -/
def validFieldMethod : TraitItem → Bool
  | TraitItem.method m =>
    match m.metaRes with
    | .ok meta => !meta.ignore && !meta.downcast && validReceiver m.sig.inputs
    | .error _ => false
  | _ => false

/-- A method directive bag with no directives set. -/
def plain_method_meta : TraitMethodMeta :=
  { name := none, description := none, deprecated := none
    ignore := false, downcast := false }

/-- An interface directive bag with no directives set. -/
def base_meta : InterfaceMeta :=
  { name := none, description := none, context := none, scalar := none
    implementers := [], external_downcasts := [], asyncness := false
    as_dyn := none, as_enum := none, is_internal := false }

/-- A plain field method `fn n(&self) -> out;` without directives. -/
def field_method (n : Ident) (out : Ty) (sp : Span) : TraitItemMethod :=
  { sig := { ident := n, inputs := [FnArg.receiver true false sp]
             output := some out, asyncness := false, span := sp }
    metaRes := .ok plain_method_meta
    hasDefault := false
    span := sp }

/-- An in-trait downcast method `fn n(&self) -> Option<&Target>;` marked with
the `downcast` directive. -/
def downcast_method (n : Ident) (target : Ident) (sp : Span) : TraitItemMethod :=
  { sig := { ident := n, inputs := [FnArg.receiver true false sp]
             output := some (Ty.option (Ty.ref (Ty.path target))), asyncness := false, span := sp }
    metaRes := .ok { plain_method_meta with downcast := true }
    hasDefault := false
    span := sp }

/-- The spec's happy-path scenario (§8): two field methods and one implementer
with an in-trait downcast method. -/
def ex_meta : InterfaceMeta := { base_meta with implementers := [(Ty.path "Droid", 1)] }

/-- See `ex_meta`. -/
def ex_ast : ItemTrait :=
  { ident := "Character", ident_span := 0, vis := "pub", generics := []
    supertraits := [], where_preds := []
    items := [TraitItem.method (field_method "name" (Ty.path "String") 10),
              TraitItem.method (field_method "value" (Ty.path "Int") 11),
              TraitItem.method (downcast_method "as_droid" "Droid" 12)] }

/-- The successful output of the happy-path scenario. -/
def ex_out : ExpandOutput :=
  match expand_on_trait ex_meta ex_ast with
  | Expansion.success o => o
  | _ => default

/-- Two in-trait downcast methods for the same implementer type. -/
def c1_ast : ItemTrait :=
  { ex_ast with items := [TraitItem.method (downcast_method "as_droid" "Droid" 2),
                          TraitItem.method (downcast_method "as_droid_too" "Droid" 3)] }

/-- A declaration marked internal whose single field carries the explicit name
`__typename`. -/
def c2_meta : InterfaceMeta := { base_meta with is_internal := true }

/-- See `c2_meta`. -/
def c2_method : TraitItemMethod :=
  { sig := { ident := "typename_of", inputs := [FnArg.receiver true false 4]
             output := some (Ty.path "String"), asyncness := false, span := 4 }
    metaRes := .ok { plain_method_meta with name := some ("__typename", 5) }
    hasDefault := false
    span := 4 }

/-- See `c2_meta`. -/
def c2_ast : ItemTrait := { ex_ast with items := [TraitItem.method c2_method] }

/-- A directive-free argument whose identifier starts with the reserved
prefix. -/
def c2_arg : PatType :=
  { pat := Pat.ident "__secret", ty := Ty.path "String"
    metaRes := .ok { name := none, description := none, dfault := none
                     context := none, executor := none }
    span := 6 }

/-- An argument directive bag carrying both an explicit `context` directive
and a `name` directive. -/
def c3_arg_meta : ArgumentMeta :=
  { name := some ("x", 8), description := none, dfault := none
    context := some 7, executor := none }

/-- A parameter carrying `c3_arg_meta`. -/
def c3_arg : PatType :=
  { pat := Pat.ident "value", ty := Ty.ref (Ty.path "MyCtx")
    metaRes := .ok c3_arg_meta, span := 9 }

/-- A parameter named `context` (convention-classified) that additionally
carries a `name` directive. -/
def c3_conv_arg : PatType :=
  { pat := Pat.ident "context", ty := Ty.ref (Ty.path "MyCtx")
    metaRes := .ok { name := some ("x", 8), description := none, dfault := none
                     context := none, executor := none }
    span := 9 }

/-- An external downcast binding targeting a type never declared as an
implementer. -/
def ghost_binding : Ty × RustPath × Span := (Ty.path "Ghost", "into_ghost", 33)

/-- A registry entry for the declared implementer `Droid`, still unbound. -/
def droid_impl : ImplementerDefinition :=
  { ty := Ty.path "Droid", downcast := none, context_ty := none, span := 1 }

/-- A single asynchronous method that carries the `ignore` directive. -/
def c7_method : TraitItemMethod :=
  { sig := { ident := "poll_events", inputs := [FnArg.receiver true false 2]
             output := some (Ty.path "String"), asyncness := true, span := 2 }
    metaRes := .ok { plain_method_meta with ignore := true }
    hasDefault := false
    span := 2 }

/-- A declaration whose only method is an ignored async method. -/
def c7_ast : ItemTrait := { ex_ast with ident := "Stream", items := [TraitItem.method c7_method] }

/-- The successful output of expanding `c7_ast`. -/
def c7_out : ExpandOutput :=
  match expand_on_trait base_meta c7_ast with
  | Expansion.success o => o
  | _ => default

theorem expand_success_inv {meta : InterfaceMeta} {ast : ItemTrait} {out : ExpandOutput}
    (h : expand_on_trait meta ast = Expansion.success out) :
    ∃ st, processItems (init_state meta) ast.items = .ok st ∧ st.diags = [] ∧
      out = assemble meta ast st := by
  unfold expand_on_trait at h
  split at h
  · exact Expansion.noConfusion h
  · split at h
    · exact Expansion.noConfusion h
    · next st heq =>
      split at h
      · next hd =>
        simp only [Expansion.success.injEq] at h
        exact ⟨st, heq, hd, h.symm⟩
      · exact Expansion.noConfusion h

theorem parse_downcast_none_diag {m : TraitItemMethod} {ds : List Diag}
    (h : TraitMethod.parse_downcast m = (none, ds)) : ds ≠ [] := by
  unfold TraitMethod.parse_downcast at h
  split at h
  all_goals try split at h
  all_goals try split at h
  all_goals intro hds
  all_goals subst hds
  all_goals simp_all

theorem parse_field_none_diag {m : TraitItemMethod} {meta : TraitMethodMeta} {ds : List Diag}
    (h : TraitMethod.parse_field m meta = (none, ds)) : ds ≠ [] := by
  simp only [TraitMethod.parse_field] at h
  split at h
  all_goals try split at h
  all_goals try split at h
  all_goals try split at h
  all_goals intro hds
  all_goals subst hds
  all_goals simp_all

theorem parse_field_some_receiver {m : TraitItemMethod} {meta : TraitMethodMeta}
    {f : InterfaceFieldDefinition} {ds : List Diag}
    (h : TraitMethod.parse_field m meta = (some f, ds)) :
    validReceiver m.sig.inputs = true := by
  simp only [TraitMethod.parse_field] at h
  split at h
  · exact absurd h (by simp)
  · split at h
    · exact absurd h (by simp)
    · rename_i reference mutability sp rest heq
      split at h
      · exact absurd h (by simp)
      · rename_i hrcv
        rw [heq]
        simp only [validReceiver]
        revert hrcv
        cases reference <;> cases mutability <;> simp
    · split at h
      · split at h <;> exact absurd h (by simp)
      · exact absurd h (by simp)

theorem parse_field_case {m : TraitItemMethod} {f : InterfaceFieldDefinition} {ds : List Diag}
    (h : TraitMethod.parse m = (some (TraitMethod.field f), ds)) :
    ∃ meta, m.metaRes = .ok meta ∧ meta.ignore = false ∧ meta.downcast = false ∧
      TraitMethod.parse_field m meta = (some f, ds) := by
  unfold TraitMethod.parse at h
  split at h
  · exact absurd h (by simp)
  · rename_i meta hm
    split at h
    · exact absurd h (by simp)
    · rename_i hig
      split at h
      · split at h <;> exact absurd h (by simp)
      · rename_i hdc
        split at h
        · rename_i f' ds' hpf
          simp only [Prod.mk.injEq, Option.some.injEq, TraitMethod.field.injEq] at h
          obtain ⟨hf, hds⟩ := h
          subst hf; subst hds
          exact ⟨meta, hm, by simpa using hig, by simpa using hdc, hpf⟩
        · exact absurd h (by simp)

theorem parse_downcast_case {m : TraitItemMethod} {d : ImplementerDefinition} {ds : List Diag}
    (h : TraitMethod.parse m = (some (TraitMethod.downcast d), ds)) :
    ∃ meta, m.metaRes = .ok meta ∧ meta.ignore = false ∧ meta.downcast = true := by
  unfold TraitMethod.parse at h
  split at h
  · exact absurd h (by simp)
  · rename_i meta hm
    split at h
    · exact absurd h (by simp)
    · rename_i hig
      split at h
      · rename_i hdc
        exact ⟨meta, hm, by simpa using hig, hdc⟩
      · split at h <;> exact absurd h (by simp)

theorem parse_none_clean {m : TraitItemMethod}
    (h : TraitMethod.parse m = (none, [])) :
    ∃ meta, m.metaRes = .ok meta ∧ meta.ignore = true := by
  unfold TraitMethod.parse at h
  split at h
  · exact absurd h (by simp)
  · rename_i meta hm
    split at h
    · rename_i hig
      exact ⟨meta, hm, hig⟩
    · split at h
      · split at h
        · exact absurd h (by simp)
        · rename_i hpd
          simp only [Prod.mk.injEq] at h
          exact absurd h.2 (parse_downcast_none_diag hpd)
      · split at h
        · exact absurd h (by simp)
        · rename_i hpf
          simp only [Prod.mk.injEq] at h
          exact absurd h.2 (parse_field_none_diag hpf)

theorem step_clean {st st' : LoopState} {item : TraitItem}
    (h : stepItem st item = .ok st') (hd : st'.diags = []) :
    st.diags = [] ∧
      st'.fields.length = st.fields.length + (if validFieldMethod item then 1 else 0) := by
  cases item with
  | method m =>
    rcases hp : TraitMethod.parse m with ⟨res, ds⟩
    unfold stepItem at h
    dsimp only at h
    rw [hp] at h
    rcases res with _ | tm
    · -- none: diagnostics only
      dsimp only at h
      simp only [Except.ok.injEq] at h
      subst h
      simp only [List.append_eq_nil] at hd
      obtain ⟨hst, hds⟩ := hd
      subst hds
      obtain ⟨meta, hm, hig⟩ := parse_none_clean hp
      have hv : validFieldMethod (TraitItem.method m) = false := by
        simp [validFieldMethod, hm, hig]
      simp [hst, hv]
    · rcases tm with ⟨f⟩ | ⟨d⟩
      · -- field
        dsimp only at h
        simp only [Except.ok.injEq] at h
        subst h
        simp only [List.append_eq_nil] at hd
        obtain ⟨hst, hds⟩ := hd
        subst hds
        obtain ⟨meta, hm, hig, hdc, hpf⟩ := parse_field_case hp
        have hrcv := parse_field_some_receiver hpf
        have hv : validFieldMethod (TraitItem.method m) = true := by
          simp [validFieldMethod, hm, hig, hdc, hrcv]
        simp [hst, hv]
      · -- downcast
        obtain ⟨meta, hm, hig, hdc⟩ := parse_downcast_case hp
        have hv : validFieldMethod (TraitItem.method m) = false := by
          simp [validFieldMethod, hm, hig, hdc]
        dsimp only at h
        rcases hta : tryAttach d st.implementers with _ | ⟨impls⟩ | ⟨ext, t⟩
        all_goals rw [hta] at h
        all_goals dsimp only at h
        · -- notFound: a diagnostic is appended, contradicting hd
          simp only [Except.ok.injEq] at h
          subst h
          simp at hd
        · -- attached
          simp only [Except.ok.injEq] at h
          subst h
          simp only [List.append_eq_nil] at hd
          simp [hd.1, hv]
        · -- conflict
          rcases hdup : err_duplicate_downcast m ext t with ⟨e⟩ | ⟨diag⟩
          all_goals rw [hdup] at h
          all_goals dsimp only at h
          · exact Except.noConfusion h
          · simp only [Except.ok.injEq] at h
            subst h
            simp at hd
  | typeItem i =>
    simp only [stepItem, Except.ok.injEq] at h
    subst h
    exact ⟨hd, by simp [validFieldMethod]⟩
  | constItem i t =>
    simp only [stepItem, Except.ok.injEq] at h
    subst h
    exact ⟨hd, by simp [validFieldMethod]⟩
  | otherItem =>
    simp only [stepItem, Except.ok.injEq] at h
    subst h
    exact ⟨hd, by simp [validFieldMethod]⟩

theorem processItems_clean : ∀ {items : List TraitItem} {st st' : LoopState},
    processItems st items = .ok st' → st'.diags = [] →
    st.diags = [] ∧ st'.fields.length = st.fields.length + items.countP validFieldMethod := by
  intro items
  induction items with
  | nil =>
    intro st st' h hd
    simp only [processItems, Except.ok.injEq] at h
    subst h
    exact ⟨hd, by simp⟩
  | cons item rest ih =>
    intro st st' h hd
    simp only [processItems] at h
    rcases hstep : stepItem st item with ⟨e⟩ | ⟨st₁⟩
    all_goals rw [hstep] at h
    · exact Except.noConfusion h
    · obtain ⟨h1, h2⟩ := ih h hd
      obtain ⟨h3, h4⟩ := step_clean hstep h1
      refine ⟨h3, ?_⟩
      rw [h2, h4, List.countP_cons]
      by_cases hv : validFieldMethod item
      · simp [hv]; omega
      · simp [hv]

theorem attach_external_map_ty {ty : Ty} {path : RustPath} :
    ∀ {impls impls' : List ImplementerDefinition},
      attach_external ty path impls = some impls' →
      impls'.map ImplementerDefinition.ty = impls.map ImplementerDefinition.ty := by
  intro impls
  induction impls with
  | nil => intro impls' h; exact Option.noConfusion h
  | cons i rest ih =>
    intro impls' h
    simp only [attach_external] at h
    split at h
    · rename_i hty
      simp only [Option.some.injEq] at h
      subst h
      simp
    · split at h
      · rename_i rest' hrec
        simp only [Option.some.injEq] at h
        subst h
        simp [ih hrec]
      · exact Option.noConfusion h

theorem attach_external_not_mem {ty : Ty} {path : RustPath} :
    ∀ {impls : List ImplementerDefinition},
      (∀ i ∈ impls, i.ty ≠ ty) → attach_external ty path impls = none := by
  intro impls
  induction impls with
  | nil => intro _; rfl
  | cons i rest ih =>
    intro hno
    have h1 : i.ty ≠ ty := hno i (List.mem_cons_self _ _)
    have h2 : attach_external ty path rest = none :=
      ih (fun j hj => hno j (List.mem_cons_of_mem _ hj))
    simp [attach_external, h1, h2]

theorem ty_absent_after_attach {ty bt : Ty} {path : RustPath}
    {impls impls' : List ImplementerDefinition}
    (hat : attach_external bt path impls = some impls')
    (hno : ∀ i ∈ impls, i.ty ≠ ty) : ∀ i ∈ impls', i.ty ≠ ty := by
  intro i hi
  have hmap := attach_external_map_ty hat
  have hmem : i.ty ∈ impls.map ImplementerDefinition.ty := by
    rw [← hmap]; exact List.mem_map_of_mem _ hi
  obtain ⟨j, hj, hje⟩ := List.mem_map.mp hmem
  rw [← hje]; exact hno j hj

theorem applyExternalDowncasts_map_ty :
    ∀ (bs : List (Ty × RustPath × Span)) (impls : List ImplementerDefinition),
      ((applyExternalDowncasts bs impls).fst).map ImplementerDefinition.ty =
        impls.map ImplementerDefinition.ty := by
  intro bs
  induction bs with
  | nil => intro impls; rfl
  | cons b rest ih =>
    intro impls
    obtain ⟨ty, path, sp⟩ := b
    simp only [applyExternalDowncasts]
    rcases hat : attach_external ty path impls with _ | impls'
    · dsimp only
      exact ih impls
    · dsimp only
      rw [ih impls', attach_external_map_ty hat]

theorem applyExternalDowncasts_diag_mem :
    ∀ (bs : List (Ty × RustPath × Span)) (impls : List ImplementerDefinition)
      (ty : Ty) (path : RustPath) (sp : Span),
      (ty, path, sp) ∈ bs → (∀ i ∈ impls, i.ty ≠ ty) →
      err_only_implementer_downcast sp ∈ (applyExternalDowncasts bs impls).snd := by
  intro bs
  induction bs with
  | nil => intro impls ty path sp hmem _; cases hmem
  | cons b rest ih =>
    intro impls ty path sp hmem hno
    obtain ⟨bt, bp, bsp⟩ := b
    simp only [applyExternalDowncasts]
    rcases List.mem_cons.mp hmem with heq | hmem'
    · simp only [Prod.mk.injEq] at heq
      obtain ⟨h1, h2, h3⟩ := heq
      subst h1; subst h2; subst h3
      rw [attach_external_not_mem hno]
      dsimp only
      exact List.mem_cons_self _ _
    · rcases hat : attach_external bt bp impls with _ | impls'
      · dsimp only
        exact List.mem_cons_of_mem _ (ih impls ty path sp hmem' hno)
      · dsimp only
        exact ih impls' ty path sp hmem' (ty_absent_after_attach hat hno)

theorem scalar_generic_param_mem :
    ∀ (gs : List GenericParam) (i : Ident), (∃ d, GenericParam.typeParam i d ∈ gs) →
      scalar_generic_param (Ty.path i) gs = some i := by
  intro gs
  induction gs with
  | nil =>
    intro i hex
    obtain ⟨d, hd⟩ := hex
    cases hd
  | cons g rest ih =>
    intro i hex
    obtain ⟨d, hd⟩ := hex
    rcases List.mem_cons.mp hd with heq | hmem
    · subst heq
      simp [scalar_generic_param]
    · cases g with
      | typeParam j dj =>
        simp only [scalar_generic_param]
        by_cases hj : Ty.path j = Ty.path i
        · rw [if_pos hj]
          simp only [Ty.path.injEq] at hj
          rw [hj]
        · rw [if_neg hj]
          exact ih i ⟨d, hmem⟩
      | lifetimeParam j => simpa [scalar_generic_param] using ih i ⟨d, hmem⟩
      | constParam j => simpa [scalar_generic_param] using ih i ⟨d, hmem⟩

theorem scalar_generic_param_absent :
    ∀ (gs : List GenericParam) (t : Ty),
      (∀ i d, GenericParam.typeParam i d ∈ gs → Ty.path i ≠ t) →
      scalar_generic_param t gs = none := by
  intro gs
  induction gs with
  | nil => intro t _; rfl
  | cons g rest ih =>
    intro t hno
    cases g with
    | typeParam j dj =>
      have h1 : Ty.path j ≠ t := hno j dj (List.mem_cons_self _ _)
      have h2 := ih t (fun i d hd => hno i d (List.mem_cons_of_mem _ hd))
      simp [scalar_generic_param, h1, h2]
    | lifetimeParam j =>
      simpa [scalar_generic_param] using ih t (fun i d hd => hno i d (List.mem_cons_of_mem _ hd))
    | constParam j =>
      simpa [scalar_generic_param] using ih t (fun i d hd => hno i d (List.mem_cons_of_mem _ hd))

/-- C1: the claim promises that attaching a second downcast binding of any
kind to an implementer that already has one always yields a duplicate-downcast
diagnostic naming both declarations. The code keeps that promise only when the
existing binding is external: with two in-trait downcast methods for the same
implementer, `err_duplicate_downcast` reaches its `unreachable!()` and the
expansion panics instead of emitting any diagnostic. This theorem evaluates
the pass at that failing input. -/
theorem duplicate_method_downcast_panics :
    expand_on_trait ex_meta c1_ast =
      Expansion.panicked "internal error: entered unreachable code" := rfl

/-- C2 (counterexample): a declaration marked internal still has its
`__`-prefixed field name rejected — the expansion aborts with the
reserved-name diagnostic where the claim promises acceptance. -/
theorem internal_reserved_field_name_still_rejected :
    c2_meta.is_internal = true ∧
    expand_on_trait c2_meta c2_ast = Expansion.abort [no_double_underscore 5] :=
  ⟨rfl, rfl⟩

/-- C2 (amended): a field or argument name beginning with the reserved `__`
prefix is rejected unconditionally (reserved-name diagnostic, item dropped) —
the method-level and argument-level checks never consult the internal marking;
only the interface's own name check is exempted for internal declarations. -/
theorem reserved_name_always_rejected :
    (∀ (m : TraitItemMethod) (meta : TraitMethodMeta),
      starts_with_uu (field_graphql_name m meta) = true →
      TraitMethod.parse_field m meta =
        (none, [no_double_underscore ((meta.name.map Prod.snd).getD m.sig.span)])) ∧
    (∀ (a : PatType) (meta : ArgumentMeta) (n : String),
      a.metaRes = .ok meta → meta.context = none → meta.executor = none →
      convention_argument a = none → argument_graphql_name a meta = some n →
      starts_with_uu n = true →
      TraitMethod.parse_field_argument a =
        (none, [no_double_underscore ((meta.name.map Prod.snd).getD a.span)])) := by
  constructor
  · intro m meta hstart
    simp [TraitMethod.parse_field, hstart]
  · intro a meta n hmeta hctx hexe hconv hname hstart
    simp [TraitMethod.parse_field_argument, hmeta, hctx, hexe, hconv, hname, hstart]

/-- Closed instance of `reserved_name_always_rejected` at the concrete
`__typename` field and `__secret` argument. -/
theorem reserved_name_always_rejected_witness :
    TraitMethod.parse_field c2_method { plain_method_meta with name := some ("__typename", 5) } =
      (none, [no_double_underscore 5]) ∧
    TraitMethod.parse_field_argument c2_arg = (none, [no_double_underscore 6]) :=
  ⟨reserved_name_always_rejected.1 c2_method _ rfl,
   reserved_name_always_rejected.2 c2_arg _ "__secret" rfl rfl rfl rfl rfl rfl⟩

/-- C3 (counterexample): a parameter carrying an explicit `context` directive
together with a `name` directive is classified as a context argument with no
diagnostic — the extra directive is silently ignored, where the claim promises
a disallowed-directive-combination report. -/
theorem explicit_context_directive_ignores_name_meta :
    c3_arg.metaRes = Except.ok c3_arg_meta ∧
    c3_arg_meta.context.isSome = true ∧
    c3_arg_meta.name.isSome = true ∧
    TraitMethod.parse_field_argument c3_arg =
      (some (MethodArgument.context (Ty.path "MyCtx")), []) :=
  ⟨rfl, rfl, rfl, rfl⟩

/-- C3 (amended): an explicit `context`/`executor` directive classifies the
parameter immediately, silently ignoring any `name`/`description`/`default`
directives; the disallowed-directive-combination diagnostic (with the
parameter dropped) is produced only when the parameter is classified as
context/executor by naming convention. -/
theorem special_argument_directive_handling :
    (∀ (a : PatType) (meta : ArgumentMeta),
      a.metaRes = .ok meta → meta.context.isSome = true →
      TraitMethod.parse_field_argument a =
        (some (MethodArgument.context a.ty.unreferenced), [])) ∧
    (∀ (a : PatType) (meta : ArgumentMeta),
      a.metaRes = .ok meta → meta.context = none → meta.executor.isSome = true →
      TraitMethod.parse_field_argument a = (some MethodArgument.executor, [])) ∧
    (∀ (a : PatType) (meta : ArgumentMeta) (arg : MethodArgument) (d : Diag),
      a.metaRes = .ok meta → meta.context = none → meta.executor = none →
      convention_argument a = some arg →
      ensure_no_regular_field_argument_meta meta = some d →
      TraitMethod.parse_field_argument a = (none, [d])) := by
  refine ⟨?_, ?_, ?_⟩
  · intro a meta hmeta hctx
    simp [TraitMethod.parse_field_argument, hmeta, hctx]
  · intro a meta hmeta hctx hexe
    simp [TraitMethod.parse_field_argument, hmeta, hctx, hexe]
  · intro a meta arg d hmeta hctx hexe hconv hens
    simp [TraitMethod.parse_field_argument, hmeta, hctx, hexe, hconv, hens]

/-- Closed instance of `special_argument_directive_handling`: the explicit
directive case accepts silently, the convention case reports the disallowed
`name` directive. -/
theorem special_argument_directive_handling_witness :
    TraitMethod.parse_field_argument c3_arg =
      (some (MethodArgument.context (Ty.path "MyCtx")), []) ∧
    TraitMethod.parse_field_argument c3_conv_arg = (none, [err_disallowed_attr 8 "name"]) :=
  ⟨special_argument_directive_handling.1 c3_arg c3_arg_meta rfl rfl,
   special_argument_directive_handling.2.2 c3_conv_arg _ _ _ rfl rfl rfl rfl rfl⟩

/-- C4: an external downcast binding whose target type is absent from the
declared-implementer registry always contributes the non-implementer
diagnostic at the binding's location, while the registry's
implementer-type list is left untouched — in particular no
`ImplementerDefinition` for the target type is ever created. -/
theorem external_downcast_non_implementer :
    ∀ (bs : List (Ty × RustPath × Span)) (impls : List ImplementerDefinition)
      (ty : Ty) (path : RustPath) (sp : Span),
      (ty, path, sp) ∈ bs →
      (∀ i ∈ impls, i.ty ≠ ty) →
      err_only_implementer_downcast sp ∈ (applyExternalDowncasts bs impls).snd ∧
      ((applyExternalDowncasts bs impls).fst).map ImplementerDefinition.ty =
        impls.map ImplementerDefinition.ty ∧
      ∀ i ∈ (applyExternalDowncasts bs impls).fst, i.ty ≠ ty := by
  intro bs impls ty path sp hmem hno
  refine ⟨applyExternalDowncasts_diag_mem bs impls ty path sp hmem hno,
          applyExternalDowncasts_map_ty bs impls, ?_⟩
  intro i hi
  have hmap := applyExternalDowncasts_map_ty bs impls
  have hmem' : i.ty ∈ impls.map ImplementerDefinition.ty := by
    rw [← hmap]; exact List.mem_map_of_mem _ hi
  obtain ⟨j, hj, hje⟩ := List.mem_map.mp hmem'
  rw [← hje]; exact hno j hj

/-- Closed instance of `external_downcast_non_implementer`: a binding for the
undeclared type `Ghost` over the single-implementer registry `[Droid]`. -/
theorem external_downcast_non_implementer_witness :
    err_only_implementer_downcast 33 ∈
      (applyExternalDowncasts [ghost_binding] [droid_impl]).snd ∧
    ((applyExternalDowncasts [ghost_binding] [droid_impl]).fst).map ImplementerDefinition.ty =
      [droid_impl].map ImplementerDefinition.ty := by
  have h := external_downcast_non_implementer [ghost_binding] [droid_impl]
    (Ty.path "Ghost") "into_ghost" 33 (by simp [ghost_binding]) (by decide)
  exact ⟨h.1, h.2.1⟩

/-- C5: the scalar-parameter resolution is the exact three-way function — no
override yields `ImplicitGeneric`, an override identical to one of the
declaration's own generic type parameters yields `ExplicitGeneric` bound to
that parameter, and any other override yields `Concrete`; and a successful
expansion records exactly this resolution in the contract model. -/
theorem scalar_resolution_three_way :
    (∀ gs : List GenericParam, resolveScalar none gs = ScalarValueType.implicitGeneric) ∧
    (∀ (gs : List GenericParam) (i : Ident), (∃ d, GenericParam.typeParam i d ∈ gs) →
      resolveScalar (some (Ty.path i)) gs = ScalarValueType.explicitGeneric i) ∧
    (∀ (gs : List GenericParam) (t : Ty),
      (∀ i d, GenericParam.typeParam i d ∈ gs → Ty.path i ≠ t) →
      resolveScalar (some t) gs = ScalarValueType.concrete t) ∧
    (∀ (meta : InterfaceMeta) (ast : ItemTrait) (out : ExpandOutput),
      expand_on_trait meta ast = Expansion.success out →
      out.generated_code.scalar = resolveScalar meta.scalar ast.generics) := by
  refine ⟨fun gs => rfl, ?_, ?_, ?_⟩
  · intro gs i hex
    simp [resolveScalar, scalar_generic_param_mem gs i hex]
  · intro gs t hno
    simp [resolveScalar, scalar_generic_param_absent gs t hno]
  · intro meta ast out h
    obtain ⟨st, hp, hd, hout⟩ := expand_success_inv h
    subst hout
    rfl

/-- Closed instance of `scalar_resolution_three_way` at concrete inputs for
all three branches. -/
theorem scalar_resolution_three_way_witness :
    resolveScalar none [] = ScalarValueType.implicitGeneric ∧
    resolveScalar (some (Ty.path "S")) [GenericParam.typeParam "S" none] =
      ScalarValueType.explicitGeneric "S" ∧
    resolveScalar (some (Ty.path "DefaultScalarValue")) [GenericParam.typeParam "S" none] =
      ScalarValueType.concrete (Ty.path "DefaultScalarValue") :=
  ⟨scalar_resolution_three_way.1 [],
   scalar_resolution_three_way.2.1 [GenericParam.typeParam "S" none] "S" ⟨none, by simp⟩,
   scalar_resolution_three_way.2.2.1 [GenericParam.typeParam "S" none]
     (Ty.path "DefaultScalarValue")
     (by intro i d hd
         simp only [List.mem_singleton, GenericParam.typeParam.injEq] at hd
         obtain ⟨h1, -⟩ := hd
         subst h1
         decide)⟩

/-- C6: whenever the pass succeeds, the number of `FieldDefinition`s in the
contract model equals the number of declared methods that are not ignored,
are not downcast operators, and have a valid (immutable reference) receiver. -/
theorem fields_count_matches_valid_methods :
    ∀ (meta : InterfaceMeta) (ast : ItemTrait) (out : ExpandOutput),
      expand_on_trait meta ast = Expansion.success out →
      out.generated_code.fields.length = ast.items.countP validFieldMethod := by
  intro meta ast out h
  obtain ⟨st, hp, hd, hout⟩ := expand_success_inv h
  subst hout
  have hclean := processItems_clean hp hd
  have hfields : (assemble meta ast st).generated_code.fields = st.fields := rfl
  rw [hfields, hclean.2]
  simp [init_state]

/-- Closed instance of `fields_count_matches_valid_methods` on the spec's
happy-path scenario (two fields, one downcast method). -/
theorem fields_count_matches_valid_methods_witness :
    expand_on_trait ex_meta ex_ast = Expansion.success ex_out ∧
    ex_out.generated_code.fields.length = ex_ast.items.countP validFieldMethod :=
  ⟨rfl, fields_count_matches_valid_methods ex_meta ex_ast ex_out rfl⟩

/-- C7 (counterexample): a declaration whose only method is an ignored async
method succeeds, produces no fields, carries no explicit async flag — and is
still marked asynchronous, contradicting the claim's "explicit flag or at
least one field method is asynchronous". -/
theorem ignored_async_method_marks_contract_async :
    base_meta.asyncness = false ∧
    expand_on_trait base_meta c7_ast = Expansion.success c7_out ∧
    c7_out.async_trait_injected = true ∧
    c7_out.generated_code.fields = [] :=
  ⟨rfl, rfl, rfl, rfl⟩

/-- C7 (amended): the contract is marked asynchronous exactly when the
declaration carries the explicit asynchronous flag or at least one declared
method — of any classification, including ignored ones — is asynchronous; the
`Sync` capability bound is appended to the supertraits exactly when the
contract is asynchronous and some declared method is both asynchronous and
default-bodied. -/
theorem async_marking_and_sync_bound :
    ∀ (meta : InterfaceMeta) (ast : ItemTrait) (out : ExpandOutput),
      expand_on_trait meta ast = Expansion.success out →
      out.async_trait_injected = (meta.asyncness || ast.items.any item_is_async) ∧
      out.ast.supertraits = ast.supertraits ++
        [Supertrait.asDynGraphQLValue (trait_scalar_token (resolveScalar meta.scalar ast.generics))] ++
        (if (meta.asyncness || ast.items.any item_is_async) && ast.items.any item_is_default_async
          then [Supertrait.sync] else []) := by
  intro meta ast out h
  obtain ⟨st, hp, hd, hout⟩ := expand_success_inv h
  subst hout
  exact ⟨rfl, rfl⟩

/-- Closed instance of `async_marking_and_sync_bound` on the happy-path
scenario. -/
theorem async_marking_and_sync_bound_witness :
    ex_out.async_trait_injected = (ex_meta.asyncness || ex_ast.items.any item_is_async) ∧
    ex_out.ast.supertraits = ex_ast.supertraits ++
      [Supertrait.asDynGraphQLValue (trait_scalar_token (resolveScalar ex_meta.scalar ex_ast.generics))] ++
      (if (ex_meta.asyncness || ex_ast.items.any item_is_async) && ex_ast.items.any item_is_default_async
        then [Supertrait.sync] else []) :=
  async_marking_and_sync_bound ex_meta ex_ast ex_out rfl

/-- C8: when neither the open (`dyn`) nor the closed (`enum`) dispatch mode is
selected, a successful expansion falls back to the closed tagged-union
artifact and synthesizes its identifier as the trait identifier suffixed with
`Value`, recording the same identifier in the contract model. -/
theorem dispatch_fallback_enum_value :
    ∀ (meta : InterfaceMeta) (ast : ItemTrait) (out : ExpandOutput),
      expand_on_trait meta ast = Expansion.success out →
      meta.as_dyn = none → meta.as_enum = none →
      out.generated_code.ty = ast.ident ++ "Value" ∧
      out.value_type.is_enum = true ∧
      out.value_type.artifact_ident = ast.ident ++ "Value" := by
  intro meta ast out h hdyn henum
  obtain ⟨st, hp, hd, hout⟩ := expand_success_inv h
  subst hout
  simp [assemble, hdyn, henum, ValueType.is_enum, ValueType.artifact_ident]

/-- Closed instance of `dispatch_fallback_enum_value` on the happy-path
scenario (no dispatch-mode directive). -/
theorem dispatch_fallback_enum_value_witness :
    ex_out.generated_code.ty = "CharacterValue" ∧
    ex_out.value_type.is_enum = true ∧
    ex_out.value_type.artifact_ident = "CharacterValue" :=
  dispatch_fallback_enum_value ex_meta ex_ast ex_out rfl rfl rfl

/-- C9: the pass is deterministic — two runs on the same unchanged declaration
yield the same contract model and the same dispatch artifact. The embedded
pass is a pure function of its inputs (the source performs no I/O and uses no
nondeterministic state), so equal inputs force equal outputs. -/
theorem expansion_deterministic :
    ∀ (meta : InterfaceMeta) (ast : ItemTrait) (out₁ out₂ : ExpandOutput),
      expand_on_trait meta ast = Expansion.success out₁ →
      expand_on_trait meta ast = Expansion.success out₂ →
      out₁.generated_code = out₂.generated_code ∧ out₁.value_type = out₂.value_type := by
  intro meta ast o1 o2 h1 h2
  rw [h1] at h2
  injection h2 with h
  subst h
  exact ⟨rfl, rfl⟩

/-- Closed instance of `expansion_deterministic` on the happy-path scenario. -/
theorem expansion_deterministic_witness :
    ex_out.generated_code = ex_out.generated_code ∧ ex_out.value_type = ex_out.value_type :=
  expansion_deterministic ex_meta ex_ast ex_out ex_out rfl rfl

/-- C10: the resolved context type follows the fixed precedence — the explicit
`context` directive if present; otherwise the context type of the first
`Context`-classified argument found scanning fields in order; otherwise the
context type recorded by the first implementer whose downcast consumes one;
otherwise none — and a successful expansion records exactly this resolution
over its own computed fields and implementers. -/
theorem context_resolution_precedence :
    (∀ (meta : InterfaceMeta) (ast : ItemTrait) (out : ExpandOutput),
      expand_on_trait meta ast = Expansion.success out →
      out.generated_code.context =
        resolveContext meta.context out.generated_code.fields out.generated_code.implementers) ∧
    (∀ (c : Ty) (fs : List InterfaceFieldDefinition) (impls : List ImplementerDefinition),
      resolveContext (some c) fs impls = some c) ∧
    (∀ (fs : List InterfaceFieldDefinition) (impls : List ImplementerDefinition) (c : Ty),
      fields_context fs = some c → resolveContext none fs impls = some c) ∧
    (∀ (fs : List InterfaceFieldDefinition) (impls : List ImplementerDefinition),
      fields_context fs = none → resolveContext none fs impls = implementers_context impls) := by
  refine ⟨?_, fun c fs impls => rfl, ?_, ?_⟩
  · intro meta ast out h
    obtain ⟨st, hp, hd, hout⟩ := expand_success_inv h
    subst hout
    rfl
  · intro fs impls c hf
    simp [resolveContext, hf]
  · intro fs impls hf
    simp [resolveContext, hf]

/-- Closed instance of `context_resolution_precedence` on the happy-path
scenario plus the explicit-directive branch. -/
theorem context_resolution_precedence_witness :
    ex_out.generated_code.context =
      resolveContext ex_meta.context ex_out.generated_code.fields
        ex_out.generated_code.implementers ∧
    resolveContext (some (Ty.path "Ctx")) [] [] = some (Ty.path "Ctx") :=
  ⟨context_resolution_precedence.1 ex_meta ex_ast ex_out rfl,
   context_resolution_precedence.2.1 (Ty.path "Ctx") [] []⟩
